import Mathlib

/-!
Verification development for the rust-green web client and its session API.

The repository's executable code is the browser-side JavaScript:
the main page application (RustGreenApp), the session-detail page
(SessionDetailApp, src/frontend/session-detail.js) and the sessions
browser (SessionsApp).  Strings are modelled as `List Char`, the
client's HTTP traffic as explicit `Request` values, and the DOM-free
decision logic of each handler as pure functions.  The backend that
the spec describes (session manager, queue, worker) is not part of the
source tree; where a property depends on it, the corresponding
definition is modelled from the spec and marked as such in its
doc comment.
-/

/-! ## Character classes (JavaScript regex and trim semantics) -/

/-- The character class matched by JavaScript regex whitespace and removed
by String.prototype.trim: TAB LF VT FF CR SP NBSP, plus the Unicode space
separators, LS, PS, NNBSP, MMSP, IDSP and ZWNBSP. -/
def isJsWhitespace (c : Char) : Bool :=
  let n := c.toNat
  n == 9 || n == 10 || n == 11 || n == 12 || n == 13 || n == 32 ||
  n == 0xA0 || n == 0x1680 || (decide (0x2000 ≤ n) && decide (n ≤ 0x200A)) ||
  n == 0x2028 || n == 0x2029 || n == 0x202F || n == 0x205F ||
  n == 0x3000 || n == 0xFEFF

/-- Word characters for the JavaScript regex boundary assertion \b:
[A-Za-z0-9_]. -/
def isWordChar (c : Char) : Bool :=
  let n := c.toNat
  (decide (65 ≤ n) && decide (n ≤ 90)) || (decide (97 ≤ n) && decide (n ≤ 122)) ||
  (decide (48 ≤ n) && decide (n ≤ 57)) || n == 95

/-- Word-character test for the character preceding the current scan
position; at the start of the input there is no preceding character. -/
def isWordCharOpt : Option Char → Bool
  | none => false
  | some c => isWordChar c

/-! ## escapeHtml (RustGreenApp.escapeHtml, SessionDetailApp.escapeHtml,
SessionsApp.escapeHtml)

The source sets div.textContent and reads back div.innerHTML.  Reading
innerHTML serializes the text node with the HTML fragment serialization
algorithm, whose "escape a string" step (in text mode) replaces
the ampersand with the amp entity, U+00A0 with the nbsp entity,
the less-than sign with the lt entity and the greater-than sign with
the gt entity.  `escapeHtmlChar` is that per-character step. -/

/-- One character of the HTML text-serialization escape performed by
reading back innerHTML after assigning textContent. -/
def escapeHtmlChar (c : Char) : List Char :=
  if c = '&' then "&amp;".toList
  else if c = '\xA0' then "&nbsp;".toList
  else if c = '<' then "&lt;".toList
  else if c = '>' then "&gt;".toList
  else [c]

/-- escapeHtml as implemented via textContent / innerHTML round trip. -/
def escapeHtml (s : List Char) : List Char :=
  (s.map escapeHtmlChar).flatten

/-- The replacement described by the claim's words: only the ampersand,
the less-than sign and the greater-than sign are rewritten.  Kept
separate from `escapeHtmlChar` so the two can be compared. -/
def claimEscapeChar (c : Char) : List Char :=
  if c = '&' then "&amp;".toList
  else if c = '<' then "&lt;".toList
  else if c = '>' then "&gt;".toList
  else [c]

/-- The whole-string replacement described by the claim's words. -/
def claimEscape (s : List Char) : List Char :=
  (s.map claimEscapeChar).flatten

/-! ## countLines and countUnsafeBlocks (RustGreenApp utility functions) -/

/-- JavaScript String.prototype.split with a single-character separator:
the result always has one part more than there are separators, and
splitting the empty string yields one empty part. -/
def splitOnChar (sep : Char) : List Char → List (List Char)
  | [] => [[]]
  | c :: cs =>
    if c = sep then [] :: splitOnChar sep cs
    else
      match splitOnChar sep cs with
      | [] => [[c]]
      | p :: ps => (c :: p) :: ps

/-- RustGreenApp.countLines: code.split of the newline character, then
length. -/
def countLines (code : List Char) : Nat :=
  (splitOnChar '\n' code).length

/-- Consume a literal sequence of characters from the head of the input,
returning the remainder on success. -/
def dropLit : List Char → List Char → Option (List Char)
  | [], l => some l
  | _ :: _, [] => none
  | p :: ps, c :: cs => if p = c then dropLit ps cs else none

/-- Greedy whitespace followed by an opening brace (written here as its
code U+007B): the regex tail after the keyword.  Returns the suffix
after the brace. -/
def braceAfterWs : List Char → Option (List Char)
  | [] => none
  | c :: rest =>
    if isJsWhitespace c then braceAfterWs rest
    else if c = '\x7b' then some rest else none

/-- Try to match the whole pattern (the literal keyword letters, greedy
whitespace, then an opening brace) at the head of the input; returns the
suffix after the brace. -/
def matchUnsafeBrace (l : List Char) : Option (List Char) :=
  (dropLit "unsafe".toList l).bind braceAfterWs

/-- Global regex scan: at each position where the scanner is not inside
a previously matched occurrence (tracked by `blocked`, the number of
positions still covered by the last match) and the word boundary holds
(the previous character is not a word character), attempt the pattern;
on success count it and advance lastIndex past the match. -/
def countUnsafeGo : Nat → Option Char → List Char → Nat
  | _, _, [] => 0
  | Nat.succ b, _, c :: cs => countUnsafeGo b (some c) cs
  | 0, prev, c :: cs =>
    if isWordCharOpt prev then countUnsafeGo 0 (some c) cs
    else
      match matchUnsafeBrace (c :: cs) with
      | some rest => 1 + countUnsafeGo ((c :: cs).length - rest.length - 1) (some c) cs
      | none => countUnsafeGo 0 (some c) cs

/-- RustGreenApp.countUnsafeBlocks: the number of matches of the global
regex (word boundary, the keyword, optional whitespace, opening brace)
in the code. -/
def countUnsafeBlocks (code : List Char) : Nat :=
  countUnsafeGo 0 none code

/-- The character immediately preceding a match that starts after the
text `pre`; when `pre` is empty it is the character preceding the whole
scanned region. -/
def lastOr (prev : Option Char) (pre : List Char) : Option Char :=
  match pre.getLast? with
  | some x => some x
  | none => prev

/-- Declarative reading of a regex occurrence: somewhere in `code` the
literal keyword appears, preceded by a non-word character (or the region
start continuing `prev`), followed by whitespace and an opening brace. -/
def HasUnsafeMatchFrom (prev : Option Char) (code : List Char) : Prop :=
  ∃ pre ws suf, code = pre ++ "unsafe".toList ++ ws ++ '\x7b' :: suf ∧
    ws.all isJsWhitespace = true ∧ isWordCharOpt (lastOr prev pre) = false

/-- Declarative reading of "the code contains a match of the pattern". -/
def HasUnsafeMatch (code : List Char) : Prop :=
  HasUnsafeMatchFrom none code

/-! ## Session status values and the client's HTTP requests -/

/-- The status strings the polling API returns for a session. -/
inductive Status
  | pending
  | processing
  | completed
  | failed
deriving DecidableEq

/-- A status is terminal when it is completed or failed. -/
def isTerminalStatus (s : Status) : Bool :=
  if s = Status.completed ∨ s = Status.failed then true else false

/-- HTTP methods used by the client. -/
inductive Method
  | GET
  | POST
  | DELETE
deriving DecidableEq

/-- An HTTP request as assembled by the apiRequest helpers: method,
path below the API base URL, and optional body payload. -/
structure Request where
  method : Method
  path : String
  body : Option String
deriving DecidableEq

/-- The per-call options object passed to apiRequest (the default
options only add a content-type header, which carries no state). -/
structure FetchOpts where
  method : Option Method
  body : Option String
deriving DecidableEq

/-- fetch issues a GET when the merged options carry no method; the
spread of defaultOptions adds neither method nor body. -/
def effectiveMethod (o : FetchOpts) : Method :=
  o.method.getD Method.GET

/-- The request produced by apiRequest for a path and options object. -/
def mkApiRequest (path : String) (o : FetchOpts) : Request :=
  { method := effectiveMethod o, path := path, body := o.body }

/-- RustGreenApp.getSessionStatus / the detail page status poll:
apiRequest with no options. -/
def getSessionStatusReq (sid : String) : Request :=
  mkApiRequest ("/sessions/" ++ sid ++ "/status") { method := none, body := none }

/-- RustGreenApp.getSession / SessionDetailApp.loadSessionData:
apiRequest with no options. -/
def getSessionReq (sid : String) : Request :=
  mkApiRequest ("/sessions/" ++ sid) { method := none, body := none }

/-- RustGreenApp.createSession: POST /sessions with the code as body. -/
def createSessionReq (code : String) : Request :=
  mkApiRequest "/sessions" { method := some Method.POST, body := some code }

/-! ## The polling loop (RustGreenApp.pollSessionStatus and
SessionDetailApp.pollSessionStatus)

Both pages run the same loop: every POLLING_INTERVAL (2000 ms) the tick
first checks the elapsed time against MAX_POLLING_TIME (600000 ms) and,
if within the limit, issues one status GET; a completed or failed status
stops the interval (the main page then fetches the full session on
completed, the detail page reloads the session either way), a pending or
processing status leaves the interval running, and a request error is
only logged, leaving the interval running. -/

/-- The client-side polling interval in milliseconds. -/
def pollingIntervalMs : Nat := 2000

/-- MAX_POLLING_TIME: ten minutes in milliseconds. -/
def maxPollingTimeMs : Nat := 10 * 60 * 1000

/-- The body of the status response used by the tick. -/
structure StatusResp where
  status : Status
  progress : Nat
deriving DecidableEq

/-- What one tick of pollSessionStatus decides.  The observation is
`none` when the status request itself failed (the catch branch). -/
inductive PollOutcome
  | timedOut
  | continuePolling
  | finishedCompleted
  | finishedFailed
deriving DecidableEq

/-- Whether the tick leaves the polling interval running. -/
def PollOutcome.continues : PollOutcome → Bool
  | PollOutcome.continuePolling => true
  | _ => false

/-- One tick of pollSessionStatus, given the elapsed time since
startPolling and the observed status response (if the request
succeeded). -/
def pollTick (elapsed : Nat) (resp : Option StatusResp) : PollOutcome :=
  if maxPollingTimeMs < elapsed then PollOutcome.timedOut
  else
    match resp with
    | none => PollOutcome.continuePolling
    | some r =>
      match r.status with
      | Status.completed => PollOutcome.finishedCompleted
      | Status.failed => PollOutcome.finishedFailed
      | _ => PollOutcome.continuePolling

/-- The status requests the tick issues: none in the timeout branch,
exactly one otherwise. -/
def pollTickRequests (sid : String) (elapsed : Nat) : List Request :=
  if maxPollingTimeMs < elapsed then [] else [getSessionStatusReq sid]

/-- The status requests issued over a whole run of the loop, fed by a
trace of (elapsed time, observation) pairs, one per scheduled tick; the
run ends as soon as a tick stops the interval. -/
def pollRunStatusRequests (sid : String) : List (Nat × Option StatusResp) → List Request
  | [] => []
  | (e, resp) :: rest =>
    match pollTick e resp with
    | PollOutcome.timedOut => []
    | PollOutcome.continuePolling => getSessionStatusReq sid :: pollRunStatusRequests sid rest
    | _ => [getSessionStatusReq sid]

/-- SessionDetailApp.loadSessionData: polling is started after the full
fetch exactly when the fetched status is processing or pending. -/
def shouldStartPolling (s : Status) : Bool :=
  if s = Status.processing ∨ s = Status.pending then true else false

/-! ## The server, modelled from the spec

The backend is present in the repository only as documentation, so its
behavior is taken from the spec: the session state machine (spec 4.1),
CreateSession validation and enqueueing (spec 4.1 and 6), the read-only
polling facade (spec 4.4), and the worker's progress formula
(spec 4.3). -/

/-- Modelled from the spec: the session state machine of the absent
Session Manager.  PENDING goes only to PROCESSING when a worker picks
the session up; PROCESSING goes to COMPLETED when the pipeline finishes
and to FAILED on unrecoverable error; no other transitions exist. -/
inductive CanTransition : Status → Status → Prop
  | pickUp : CanTransition Status.pending Status.processing
  | finish : CanTransition Status.processing Status.completed
  | fail : CanTransition Status.processing Status.failed

/-- Error responses of the API relevant here. -/
inductive ApiError
  | validationError
  | notFoundError
deriving DecidableEq

/-- A stored session in the modelled backend. -/
structure ServerSession where
  sid : Nat
  status : Status
  progress : Nat
  errorMessage : Option String
deriving DecidableEq

/-- Modelled from the spec: the shared mutable state of the absent
backend - the session store and the job queue of session ids. -/
structure ServerState where
  sessions : List ServerSession
  queue : List Nat
  nextId : Nat
deriving DecidableEq

/-- Modelled from the spec: CreateSession of the absent Session Manager.
Empty or oversized code is rejected with a ValidationError and nothing
is stored or enqueued; otherwise a PENDING session with progress 0 is
persisted and its id enqueued. -/
def serverSubmit (maxLen : Nat) (code : String) (st : ServerState) :
    ServerState × Except ApiError Nat :=
  if code.length = 0 ∨ maxLen < code.length then
    (st, Except.error ApiError.validationError)
  else
    let fresh : ServerSession :=
      { sid := st.nextId, status := Status.pending, progress := 0, errorMessage := none }
    ({ sessions := st.sessions ++ [fresh],
       queue := st.queue ++ [st.nextId],
       nextId := st.nextId + 1 },
     Except.ok st.nextId)

/-- Modelled from the spec: how the absent backend's state reacts to one
request.  GET status and GET session are pure reads against Session
Manager state (spec 4.4), POST /sessions is CreateSession, and DELETE
removes the addressed session. -/
def serverHandle (maxLen : Nat) (r : Request) (st : ServerState) : ServerState :=
  match r.method with
  | Method.GET => st
  | Method.POST => (serverSubmit maxLen (r.body.getD "") st).1
  | Method.DELETE =>
    { st with sessions :=
        st.sessions.filter (fun ss => "/sessions/" ++ toString ss.sid ≠ r.path) }

/-- Folding a list of requests over the modelled backend state. -/
def serverHandleAll (maxLen : Nat) (st : ServerState) (rs : List Request) : ServerState :=
  rs.foldl (fun s r => serverHandle maxLen r s) st

/-! ## startAnalysis (RustGreenApp.startAnalysis) -/

/-- JavaScript String.prototype.trim. -/
def jsTrim (s : List Char) : List Char :=
  ((s.dropWhile isJsWhitespace).reverse.dropWhile isJsWhitespace).reverse

/-- What startAnalysis does with the raw editor content before any
network traffic: show a validation warning when the trimmed code is
empty, otherwise submit the trimmed code. -/
inductive SubmitAction
  | warnEmpty
  | postCreate (code : List Char)
deriving DecidableEq

/-- The synchronous decision of startAnalysis on the raw input. -/
def startAnalysisAction (input : List Char) : SubmitAction :=
  let code := jsTrim input
  if code.isEmpty then SubmitAction.warnEmpty else SubmitAction.postCreate code

/-- The requests startAnalysis issues for a given raw input. -/
def startAnalysisRequests (input : List Char) : List Request :=
  match startAnalysisAction input with
  | SubmitAction.warnEmpty => []
  | SubmitAction.postCreate code => [createSessionReq (String.mk code)]

/-! ## Worker progress, modelled from the spec -/

/-- Modelled from the spec: the absent worker reports
progress = round(100 * blocksCompleted / totalBlocks) after each block,
and a session with zero extracted blocks goes straight to progress 100.
Rounding is round-half-up on naturals; the claims proved about it do
not depend on how exact halves are resolved. -/
def workerProgress (total done : Nat) : Nat :=
  if total = 0 then 100 else (200 * done + total) / (2 * total)

/-! ## The failed-session error banner
(SessionDetailApp.updateErrorMessage) -/

/-- Whether updateErrorMessage shows the error banner: the JavaScript
condition is error_message truthy (non-null and non-empty) and status
strictly equal to the failed string. -/
def bannerVisible (status : Status) (errMsg : Option String) : Bool :=
  (match errMsg with
   | none => false
   | some m => !m.isEmpty) && (if status = Status.failed then true else false)

/-! ## The sessions browser (SessionsApp) -/

/-- SESSIONS_PER_PAGE. -/
def sessionsPerPage : Nat := 10

/-- The fields of a listed session that the browser logic reads. -/
structure SessRec where
  sid : Nat
  status : Status
  createdAt : Nat
  progress : Nat
deriving DecidableEq

/-- The status filter select: the all option or one status value. -/
inductive StatusFilter
  | all
  | only (s : Status)
deriving DecidableEq

/-- The sort select. -/
inductive SortKey
  | newest
  | oldest
  | byStatus
deriving DecidableEq

/-- The statusOrder table of the status sort comparator. -/
def statusOrder : Status → Nat
  | Status.processing => 0
  | Status.pending => 1
  | Status.completed => 2
  | Status.failed => 3

/-- The sort comparator as a may-precede relation: newest sorts by
descending created_at, oldest by ascending created_at, status by the
statusOrder table. -/
def sessLE (k : SortKey) (a b : SessRec) : Bool :=
  match k with
  | SortKey.newest => if b.createdAt ≤ a.createdAt then true else false
  | SortKey.oldest => if a.createdAt ≤ b.createdAt then true else false
  | SortKey.byStatus => if statusOrder a.status ≤ statusOrder b.status then true else false

/-- Insertion into a sorted list, the auxiliary step of the comparison
sort modelling Array.prototype.sort (only the fact that sorting permutes
the array, in particular keeps its length, matters to the claims). -/
def insertSorted (le : SessRec → SessRec → Bool) (x : SessRec) :
    List SessRec → List SessRec
  | [] => [x]
  | y :: ys => if le x y then x :: y :: ys else y :: insertSorted le x ys

/-- The comparison sort used for Array.prototype.sort with the given
comparator. -/
def sortSessions (k : SortKey) : List SessRec → List SessRec
  | [] => []
  | x :: xs => insertSorted (sessLE k) x (sortSessions k xs)

/-- The mutable fields of SessionsApp that the pagination logic touches. -/
structure SessionsState where
  currentPage : Nat
  totalPages : Nat
  totalSessions : Nat
  allSessions : List SessRec
  filteredSessions : List SessRec
  currentFilter : StatusFilter
  currentSort : SortKey
deriving DecidableEq

/-- SessionsApp.updatePagination: totalSessions from the filtered list,
totalPages = Math.ceil(totalSessions / SESSIONS_PER_PAGE) with the
or-one fallback for an empty list. -/
def updatePagination (st : SessionsState) : SessionsState :=
  let n := st.filteredSessions.length
  let t := (n + (sessionsPerPage - 1)) / sessionsPerPage
  { st with totalSessions := n, totalPages := if t = 0 then 1 else t }

/-- SessionsApp.applySorting: sort the filtered list in place with the
current comparator, then updatePagination (renderSessions touches no
state). -/
def applySorting (st : SessionsState) : SessionsState :=
  updatePagination
    { st with filteredSessions := sortSessions st.currentSort st.filteredSessions }

/-- SessionsApp.applyFilters: rebuild the filtered list from
allSessions by the current filter, reset to the first page, then
applySorting. -/
def applyFilters (st : SessionsState) : SessionsState :=
  let f := match st.currentFilter with
    | StatusFilter.all => st.allSessions
    | StatusFilter.only s => st.allSessions.filter (fun r => r.status = s)
  applySorting { st with filteredSessions := f, currentPage := 1 }

/-- The status-filter change handler: store the new filter, then
applyFilters. -/
def setFilter (f : StatusFilter) (st : SessionsState) : SessionsState :=
  applyFilters { st with currentFilter := f }

/-- The sort change handler: store the new sort key, then applySorting
(the current page is not reset). -/
def setSort (k : SortKey) (st : SessionsState) : SessionsState :=
  applySorting { st with currentSort := k }

/-- SessionsApp.loadSessions with a successful response: store the
fetched list as allSessions and filteredSessions, applyFilters (which
itself sorts and repaginates), applySorting again, then
updatePagination. -/
def refreshSessions (fetched : List SessRec) (st : SessionsState) : SessionsState :=
  updatePagination (applySorting (applyFilters
    { st with allSessions := fetched, filteredSessions := fetched }))

/-- The next-page click handler. -/
def nextPage (st : SessionsState) : SessionsState :=
  if st.currentPage < st.totalPages then
    { st with currentPage := st.currentPage + 1 }
  else st

/-- The previous-page click handler. -/
def prevPage (st : SessionsState) : SessionsState :=
  if 1 < st.currentPage then
    { st with currentPage := st.currentPage - 1 }
  else st

/-- The literal initial field values of the SessionsApp object. -/
def initialSessionsState : SessionsState :=
  { currentPage := 1, totalPages := 1, totalSessions := 0,
    allSessions := [], filteredSessions := [],
    currentFilter := StatusFilter.all, currentSort := SortKey.newest }

/-- SessionsApp.init: the initial object state followed by the first
loadSessions round trip. -/
def initSessionsApp (fetched : List SessRec) : SessionsState :=
  refreshSessions fetched initialSessionsState

/-- The user operations of the sessions browser. -/
inductive SessOp
  | filterChange (f : StatusFilter)
  | sortChange (k : SortKey)
  | refreshClick (fetched : List SessRec)
  | nextClick
  | prevClick

/-- Apply one user operation. -/
def applySessOp (op : SessOp) (st : SessionsState) : SessionsState :=
  match op with
  | SessOp.filterChange f => setFilter f st
  | SessOp.sortChange k => setSort k st
  | SessOp.refreshClick fetched => refreshSessions fetched st
  | SessOp.nextClick => nextPage st
  | SessOp.prevClick => prevPage st

/-- Apply a sequence of user operations, oldest first. -/
def applySessOps (ops : List SessOp) (st : SessionsState) : SessionsState :=
  ops.foldl (fun s op => applySessOp op s) st

/-- JavaScript Array.prototype.slice with natural start and end. -/
def jsSlice (l : List SessRec) (s e : Nat) : List SessRec :=
  (l.drop s).take (e - s)

/-- SessionsApp.renderSessions: the page of sessions actually rendered,
slice(startIndex, endIndex) with startIndex = (currentPage - 1) * 10 and
endIndex = min(startIndex + 10, length). -/
def pageSlice (st : SessionsState) : List SessRec :=
  let s := (st.currentPage - 1) * sessionsPerPage
  let e := min (s + sessionsPerPage) st.filteredSessions.length
  jsSlice st.filteredSessions s e

/-- The pagination invariant of the claim: consistent page count and an
in-range current page. -/
def PaginationInv (st : SessionsState) : Prop :=
  st.totalPages = max 1 ((st.filteredSessions.length + 9) / 10) ∧
  1 ≤ st.currentPage ∧ st.currentPage ≤ st.totalPages

/-! ## Helper lemmas -/

/-- A status GET does not change the modelled backend state. -/
theorem serverHandle_statusReq (maxLen : Nat) (sid : String) (st : ServerState) :
    serverHandle maxLen (getSessionStatusReq sid) st = st := rfl

/-- A full-session GET does not change the modelled backend state. -/
theorem serverHandle_sessionReq (maxLen : Nat) (sid : String) (st : ServerState) :
    serverHandle maxLen (getSessionReq sid) st = st := rfl

/-- Terminal statuses are absorbing under the modelled state machine's
reflexive-transitive closure. -/
theorem terminal_rtg_eq {s t : Status}
    (hs : s = Status.completed ∨ s = Status.failed)
    (h : Relation.ReflTransGen CanTransition s t) : t = s := by
  rcases Relation.ReflTransGen.cases_head h with rfl | ⟨c, hc, _⟩
  · rfl
  · rcases hs with rfl | rfl <;> cases hc

/-! ## Claim theorems -/

/-- Claim C1: every tick of pollSessionStatus keeps the 2-second polling
interval alive exactly when the elapsed time is within MAX_POLLING_TIME
and the observed status is pending or processing, and stops it exactly
when the timeout has elapsed or the observed status is completed or
failed; accordingly a run of the loop issues no request on a timed-out
tick, issues one status request and keeps going on a pending or
processing observation, and issues one final status request and stops on
a terminal observation. -/
theorem C1_polling_loop :
    (∀ e r, (pollTick e (some r)).continues = true ↔
      (e ≤ maxPollingTimeMs ∧ (r.status = Status.pending ∨ r.status = Status.processing))) ∧
    (∀ e r, (pollTick e (some r)).continues = false ↔
      (maxPollingTimeMs < e ∨ r.status = Status.completed ∨ r.status = Status.failed)) ∧
    (∀ sid e resp rest, maxPollingTimeMs < e →
      pollRunStatusRequests sid ((e, resp) :: rest) = []) ∧
    (∀ sid e r rest, e ≤ maxPollingTimeMs →
      (r.status = Status.pending ∨ r.status = Status.processing) →
      pollRunStatusRequests sid ((e, some r) :: rest) =
        getSessionStatusReq sid :: pollRunStatusRequests sid rest) ∧
    (∀ sid e r rest, e ≤ maxPollingTimeMs →
      (r.status = Status.completed ∨ r.status = Status.failed) →
      pollRunStatusRequests sid ((e, some r) :: rest) = [getSessionStatusReq sid]) := by
  refine ⟨?_, ?_, ?_, ?_, ?_⟩
  · intro e r
    by_cases h : maxPollingTimeMs < e
    · simp only [pollTick, if_pos h, PollOutcome.continues]
      constructor
      · intro hf; cases hf
      · rintro ⟨he, _⟩; omega
    · cases hr : r.status <;>
        simp [pollTick, if_neg h, hr, PollOutcome.continues] <;> omega
  · intro e r
    by_cases h : maxPollingTimeMs < e
    · simp only [pollTick, if_pos h, PollOutcome.continues]
      simp [h]
    · cases hr : r.status <;>
        simp [pollTick, if_neg h, hr, PollOutcome.continues] <;> omega
  · intro sid e resp rest h
    simp [pollRunStatusRequests, pollTick, if_pos h]
  · intro sid e r rest h hr
    rcases hr with hr | hr <;>
      simp [pollRunStatusRequests, pollTick, if_neg (show ¬ maxPollingTimeMs < e by omega), hr]
  · intro sid e r rest h hr
    rcases hr with hr | hr <;>
      simp [pollRunStatusRequests, pollTick, if_neg (show ¬ maxPollingTimeMs < e by omega), hr]

/-- Witness for C1 at concrete inputs: a timed-out tick issues nothing,
and a processing observation within the limit issues one request and
continues. -/
theorem C1_polling_loop_witness :
    pollRunStatusRequests "s1" [(600001, some ⟨Status.processing, 5⟩)] = [] ∧
    pollRunStatusRequests "s1" [(4000, some ⟨Status.processing, 5⟩)] =
      [getSessionStatusReq "s1"] := by
  constructor
  · exact C1_polling_loop.2.2.1 "s1" 600001 (some ⟨Status.processing, 5⟩) [] (by decide)
  · exact C1_polling_loop.2.2.2.1 "s1" 4000 ⟨Status.processing, 5⟩ [] (by decide) (Or.inr rfl)

/-- Claim C2: in the state machine modelled from the spec no transition
leaves COMPLETED or FAILED; the client tick stops the interval on a
terminal observation, loadSessionData starts polling exactly when the
fetched status is processing or pending, and therefore any status the
server can reach from a terminal one never makes loadSessionData restart
the loop. -/
theorem C2_terminal_absorbing :
    (∀ t, ¬ CanTransition Status.completed t) ∧
    (∀ t, ¬ CanTransition Status.failed t) ∧
    (∀ s, shouldStartPolling s = true ↔ (s = Status.processing ∨ s = Status.pending)) ∧
    (∀ e r, (r.status = Status.completed ∨ r.status = Status.failed) →
      (pollTick e (some r)).continues = false) ∧
    (∀ s t, isTerminalStatus s = true → Relation.ReflTransGen CanTransition s t →
      shouldStartPolling t = false) := by
  refine ⟨?_, ?_, ?_, ?_, ?_⟩
  · intro t h; cases h
  · intro t h; cases h
  · intro s; cases s <;> simp [shouldStartPolling]
  · intro e r hr
    by_cases h : maxPollingTimeMs < e
    · simp [pollTick, if_pos h, PollOutcome.continues]
    · rcases hr with hr | hr <;> simp [pollTick, if_neg h, hr, PollOutcome.continues]
  · intro s t hs h
    have hst : s = Status.completed ∨ s = Status.failed := by
      cases s <;> simp_all [isTerminalStatus]
    have := terminal_rtg_eq hst h
    subst this
    rcases hst with rfl | rfl <;> rfl

/-- Witness for C2 at concrete inputs: a completed observation stops the
tick, and no status reachable from FAILED restarts polling. -/
theorem C2_terminal_absorbing_witness :
    (pollTick 4000 (some ⟨Status.completed, 100⟩)).continues = false ∧
    shouldStartPolling Status.failed = false := by
  constructor
  · exact C2_terminal_absorbing.2.2.2.1 4000 ⟨Status.completed, 100⟩ (Or.inl rfl)
  · exact C2_terminal_absorbing.2.2.2.2 Status.failed Status.failed (by decide)
      Relation.ReflTransGen.refl

/-- Claim C3: when the elapsed time exceeds MAX_POLLING_TIME the tick
takes the timeout branch, issues no request of any kind, and therefore
leaves the modelled server state exactly as it was. -/
theorem C3_timeout_frame :
    ∀ sid e resp maxLen st, maxPollingTimeMs < e →
      pollTick e resp = PollOutcome.timedOut ∧
      pollTickRequests sid e = [] ∧
      serverHandleAll maxLen st (pollTickRequests sid e) = st := by
  intro sid e resp maxLen st h
  refine ⟨?_, ?_, ?_⟩ <;> simp [pollTick, pollTickRequests, serverHandleAll, if_pos h]

/-- Witness for C3 one millisecond past the ten-minute limit. -/
theorem C3_timeout_frame_witness :
    pollTickRequests "s1" 600001 = [] ∧
    serverHandleAll 1000 ⟨[], [], 0⟩ (pollTickRequests "s1" 600001) = ⟨[], [], 0⟩ := by
  have h := C3_timeout_frame "s1" 600001 none 1000 ⟨[], [], 0⟩ (by decide)
  exact ⟨h.2.1, h.2.2⟩

/-- Claim C5 (progress modelled from the spec): the reported progress is
a natural number bounded by 100 and, along the worker's non-decreasing
count of completed blocks, later reports are never smaller than earlier
ones. -/
theorem C5_progress_monotone_bounded :
    ∀ total d d', d ≤ d' → d' ≤ total →
      workerProgress total d ≤ workerProgress total d' ∧
      workerProgress total d' ≤ 100 := by
  intro total d d' hdd hdt
  by_cases ht : total = 0
  · simp [workerProgress, ht]
  · have h2t : 0 < 2 * total := by omega
    constructor
    · simp only [workerProgress, if_neg ht]
      exact Nat.div_le_div_right (by omega)
    · simp only [workerProgress, if_neg ht]
      have hlt : 200 * d' + total < 101 * (2 * total) := by omega
      exact Nat.lt_succ_iff.mp ((Nat.div_lt_iff_lt_mul h2t).mpr hlt)

/-- Witness for C5: two successive polls of a three-block session. -/
theorem C5_progress_monotone_bounded_witness :
    workerProgress 3 1 ≤ workerProgress 3 2 ∧ workerProgress 3 2 ≤ 100 :=
  C5_progress_monotone_bounded 3 1 2 (by decide) (by decide)

/-- Claim C6: the status poll and the final result fetch are GET
requests with no body; apiRequest defaults to GET whenever the options
carry no method; and a whole polling run leaves the modelled read-only
server state untouched. -/
theorem C6_polling_pure_reads :
    (∀ sid, (getSessionStatusReq sid).method = Method.GET ∧
      (getSessionStatusReq sid).body = none) ∧
    (∀ sid, (getSessionReq sid).method = Method.GET ∧ (getSessionReq sid).body = none) ∧
    (∀ path o, o.method = none → (mkApiRequest path o).method = Method.GET) ∧
    (∀ maxLen sid st, serverHandle maxLen (getSessionStatusReq sid) st = st ∧
      serverHandle maxLen (getSessionReq sid) st = st) ∧
    (∀ sid obs maxLen st, serverHandleAll maxLen st (pollRunStatusRequests sid obs) = st) := by
  refine ⟨fun sid => ⟨rfl, rfl⟩, fun sid => ⟨rfl, rfl⟩, ?_, ?_, ?_⟩
  · intro path o h
    simp [mkApiRequest, effectiveMethod, h]
  · intro maxLen sid st
    exact ⟨serverHandle_statusReq maxLen sid st, serverHandle_sessionReq maxLen sid st⟩
  · intro sid obs maxLen
    induction obs with
    | nil => intro st; rfl
    | cons p rest ih =>
      intro st
      obtain ⟨e, resp⟩ := p
      simp only [pollRunStatusRequests]
      cases h : pollTick e resp
      · rfl
      · simp only [serverHandleAll, List.foldl_cons, serverHandle_statusReq]
        exact ih st
      · simp [serverHandleAll, serverHandle_statusReq]
      · simp [serverHandleAll, serverHandle_statusReq]

/-- Witness for C6: apiRequest with empty options is a GET. -/
theorem C6_polling_pure_reads_witness :
    (mkApiRequest "/sessions/abc/status" { method := none, body := none }).method =
      Method.GET :=
  C6_polling_pure_reads.2.2.1 "/sessions/abc/status" { method := none, body := none } rfl

/-- Counterexample for C4 as stated: startAnalysis performs no
client-side length check, so an input of four characters - which
exceeds a configured maximum length of three - still produces the
createSession POST. -/
theorem C4_oversized_counterexample :
    3 < (['a', 'a', 'a', 'a'] : List Char).length ∧
    jsTrim ['a', 'a', 'a', 'a'] = ['a', 'a', 'a', 'a'] ∧
    startAnalysisRequests ['a', 'a', 'a', 'a'] = [createSessionReq "aaaa"] := by
  refine ⟨by decide, by decide, by decide⟩

/-- Claim C4 as amended: startAnalysis rejects exactly the inputs whose
trimmed text is empty, synchronously and without any request; every
other input leads to exactly one POST /sessions carrying the trimmed
code; the max-length rejection belongs to the server, where (modelled
from the spec) empty or oversized code yields a ValidationError with the
session store and queue unchanged, and only non-empty, within-limit code
creates a pending session and enqueues its id. -/
theorem C4_empty_client_oversized_server :
    (∀ input, startAnalysisRequests input = [] ↔ (jsTrim input).isEmpty = true) ∧
    (∀ input, (jsTrim input).isEmpty = false →
      startAnalysisRequests input = [createSessionReq (String.mk (jsTrim input))]) ∧
    (∀ maxLen code st, code.length = 0 ∨ maxLen < code.length →
      serverSubmit maxLen code st = (st, Except.error ApiError.validationError)) ∧
    (∀ maxLen code st, ¬(code.length = 0 ∨ maxLen < code.length) →
      (serverSubmit maxLen code st).2 = Except.ok st.nextId ∧
      (serverSubmit maxLen code st).1.queue = st.queue ++ [st.nextId] ∧
      (serverSubmit maxLen code st).1.sessions = st.sessions ++
        [{ sid := st.nextId, status := Status.pending, progress := 0,
           errorMessage := none }]) := by
  refine ⟨?_, ?_, ?_, ?_⟩
  · intro input
    cases h : (jsTrim input).isEmpty <;>
      simp [startAnalysisRequests, startAnalysisAction, h]
  · intro input h
    simp [startAnalysisRequests, startAnalysisAction, h]
  · intro maxLen code st h
    simp [serverSubmit, if_pos h]
  · intro maxLen code st h
    simp [serverSubmit, if_neg h]

/-- Witness for C4's amended claim at concrete inputs. -/
theorem C4_empty_client_oversized_server_witness :
    startAnalysisRequests [' ', '\t'] = [] ∧
    serverSubmit 10 "aaaaaaaaaaaa" ⟨[], [], 7⟩ =
      (⟨[], [], 7⟩, Except.error ApiError.validationError) := by
  constructor
  · exact (C4_empty_client_oversized_server.1 [' ', '\t']).mpr (by decide)
  · exact C4_empty_client_oversized_server.2.2.1 10 "aaaaaaaaaaaa" ⟨[], [], 7⟩
      (Or.inr (by decide))

/-- Counterexample for C7 as stated: a failed session whose
error_message is the empty string is non-null, yet the banner is hidden
because the JavaScript condition tests truthiness. -/
theorem C7_empty_message_counterexample :
    bannerVisible Status.failed (some "") = false ∧
    (some "" : Option String) ≠ none := by
  exact ⟨rfl, by simp⟩

/-- Claim C7 as amended: the error banner is shown exactly when the
session status is failed and error_message is non-null and non-empty;
in every other case (any non-failed status, or a null or empty
error_message) it is hidden. -/
theorem C7_banner_iff_failed_nonempty :
    ∀ s e, bannerVisible s e = true ↔
      (s = Status.failed ∧ ∃ m, e = some m ∧ m ≠ "") := by
  intro s e
  cases e with
  | none => simp [bannerVisible]
  | some m =>
    cases s <;>
      simp [bannerVisible, Bool.eq_false_iff, ne_eq, String.isEmpty_iff]

/-- Witness for C7's amended claim: a failed session with a non-empty
message shows the banner. -/
theorem C7_banner_iff_failed_nonempty_witness :
    bannerVisible Status.failed (some "boom") = true :=
  (C7_banner_iff_failed_nonempty Status.failed (some "boom")).mpr
    ⟨rfl, "boom", rfl, by simp⟩

/-- Counterexample for C8 as stated: innerHTML also serializes U+00A0
as its entity, so on the one-character string U+00A0 escapeHtml differs
from the replacement of only the ampersand and the angle brackets. -/
theorem C8_nbsp_counterexample :
    escapeHtml ['\xA0'] = "&nbsp;".toList ∧
    escapeHtml ['\xA0'] ≠ claimEscape ['\xA0'] := by
  refine ⟨by decide, by decide⟩

/-- Claim C8 as amended: on strings without U+00A0, escapeHtml is
exactly the claimed replacement of the ampersand and the angle brackets
(U+00A0 additionally becomes its entity), and in all cases the result
contains no less-than and no greater-than character, so text rendered
through escapeHtml cannot introduce HTML elements. -/
theorem C8_escape_html :
    (∀ s, (∀ c ∈ s, c ≠ '\xA0') → escapeHtml s = claimEscape s) ∧
    (∀ s, '<' ∉ escapeHtml s ∧ '>' ∉ escapeHtml s) := by
  constructor
  · intro s hs
    induction s with
    | nil => rfl
    | cons c cs ih =>
      have hc : c ≠ '\xA0' := hs c (by simp)
      have hcs := ih (fun x hx => hs x (by simp [hx]))
      simp only [escapeHtml, claimEscape, List.map_cons, List.flatten_cons] at hcs ⊢
      rw [hcs]
      congr 1
      simp only [escapeHtmlChar, claimEscapeChar, if_neg, hc]
      by_cases h1 : c = '&'
      · simp [h1]
      · by_cases h3 : c = '<'
        · simp [h1, h3, hc]
        · by_cases h4 : c = '>'
          · simp [h1, h3, h4, hc]
          · simp [h1, h3, h4, hc]
  · intro s
    have hchar : ∀ c, '<' ∉ escapeHtmlChar c ∧ '>' ∉ escapeHtmlChar c := by
      intro c
      by_cases h1 : c = '&'
      · subst h1; exact ⟨by decide, by decide⟩
      by_cases h2 : c = '\xA0'
      · subst h2; exact ⟨by decide, by decide⟩
      by_cases h3 : c = '<'
      · subst h3; exact ⟨by decide, by decide⟩
      by_cases h4 : c = '>'
      · subst h4; exact ⟨by decide, by decide⟩
      simp only [escapeHtmlChar, if_neg h1, if_neg h2, if_neg h3, if_neg h4]
      refine ⟨?_, ?_⟩ <;> simp only [List.mem_singleton] <;> intro h
      · exact h3 h.symm
      · exact h4 h.symm
    constructor <;>
    · intro hmem
      rw [escapeHtml, List.mem_flatten] at hmem
      obtain ⟨l, hl, hcl⟩ := hmem
      rw [List.mem_map] at hl
      obtain ⟨c, _, rfl⟩ := hl
      first
        | exact (hchar c).1 hcl
        | exact (hchar c).2 hcl

/-- Witness for C8's amended claim on a concrete string. -/
theorem C8_escape_html_witness :
    escapeHtml "a&b<c>".toList = claimEscape "a&b<c>".toList :=
  C8_escape_html.1 "a&b<c>".toList (by decide)

/-- splitOnChar never produces an empty list of parts. -/
theorem splitOnChar_ne_nil (sep : Char) (l : List Char) : splitOnChar sep l ≠ [] := by
  induction l with
  | nil => simp [splitOnChar]
  | cons c cs ih =>
    by_cases h : c = sep
    · simp [splitOnChar, h]
    · simp only [splitOnChar, if_neg h]
      cases hs : splitOnChar sep cs with
      | nil => simp
      | cons p ps => simp

/-- The number of parts split produces is one more than the number of
separators. -/
theorem length_splitOnChar (sep : Char) (l : List Char) :
    (splitOnChar sep l).length = l.count sep + 1 := by
  induction l with
  | nil => simp [splitOnChar]
  | cons c cs ih =>
    by_cases h : c = sep
    · simp [splitOnChar, h, List.count_cons, ih]
    · simp only [splitOnChar, if_neg h]
      cases hs : splitOnChar sep cs with
      | nil => exact absurd hs (splitOnChar_ne_nil sep cs)
      | cons p ps =>
        rw [hs] at ih
        simp only [List.length_cons] at ih ⊢
        simp [List.count_cons, h, ih]

/-- dropLit succeeds exactly on inputs that start with the literal, and
returns the remainder. -/
theorem dropLit_eq_some_iff (ps : List Char) : ∀ l r : List Char,
    dropLit ps l = some r ↔ l = ps ++ r := by
  induction ps with
  | nil => intro l r; simp [dropLit, eq_comm]
  | cons p ps ih =>
    intro l r
    cases l with
    | nil => simp [dropLit]
    | cons c cs =>
      by_cases h : p = c
      · subst h
        simp [dropLit, ih]
      · simp [dropLit, if_neg h]
        intro hc
        exact absurd hc.symm h

/-- The whitespace-then-brace matcher succeeds exactly when the input is
a whitespace run, an opening brace, and a suffix. -/
theorem braceAfterWs_isSome_iff (r : List Char) :
    (braceAfterWs r).isSome = true ↔
      ∃ ws suf, r = ws ++ '\x7b' :: suf ∧ ws.all isJsWhitespace = true := by
  induction r with
  | nil =>
    constructor
    · intro h; simp [braceAfterWs] at h
    · rintro ⟨ws, suf, h, -⟩
      have := congrArg List.length h
      simp [List.length_append] at this
      exact absurd this (by omega)
  | cons c rest ih =>
    by_cases hs : isJsWhitespace c
    · simp only [braceAfterWs, if_pos hs, ih]
      constructor
      · rintro ⟨ws, suf, rfl, hws⟩
        exact ⟨c :: ws, suf, by simp, by simp [List.all_cons, hs, hws]⟩
      · rintro ⟨ws, suf, heq, hws⟩
        cases ws with
        | nil =>
          simp only [List.nil_append, List.cons.injEq] at heq
          obtain ⟨rfl, rfl⟩ := heq
          exact absurd hs (by decide)
        | cons w ws2 =>
          simp only [List.cons_append, List.cons.injEq] at heq
          obtain ⟨rfl, hr⟩ := heq
          simp only [List.all_cons, Bool.and_eq_true] at hws
          exact ⟨ws2, suf, hr, hws.2⟩
    · by_cases hc : c = '\x7b'
      · subst hc
        simp only [braceAfterWs, if_neg hs]
        constructor
        · intro _; exact ⟨[], rest, rfl, rfl⟩
        · intro _; simp
      · simp only [braceAfterWs, if_neg hs, if_neg hc]
        constructor
        · intro h; simp at h
        · rintro ⟨ws, suf, heq, hws⟩
          cases ws with
          | nil =>
            simp only [List.nil_append, List.cons.injEq] at heq
            exact absurd heq.1 hc
          | cons w ws2 =>
            simp only [List.cons_append, List.cons.injEq] at heq
            obtain ⟨rfl, -⟩ := heq
            simp only [List.all_cons, Bool.and_eq_true] at hws
            exact absurd (by simpa using hws.1 : isJsWhitespace c = true) hs

/-- The head matcher succeeds exactly when the input starts with the
keyword, a whitespace run, and an opening brace. -/
theorem matchUnsafeBrace_isSome_iff (l : List Char) :
    (matchUnsafeBrace l).isSome = true ↔
      ∃ ws suf, l = "unsafe".toList ++ ws ++ '\x7b' :: suf ∧
        ws.all isJsWhitespace = true := by
  constructor
  · intro h
    unfold matchUnsafeBrace at h
    cases hd : dropLit "unsafe".toList l with
    | none => rw [hd] at h; simp at h
    | some r =>
      rw [hd, show (some r).bind braceAfterWs = braceAfterWs r from rfl] at h
      obtain ⟨ws, suf, hr, hws⟩ := (braceAfterWs_isSome_iff r).mp h
      have hl : l = "unsafe".toList ++ r := (dropLit_eq_some_iff _ l r).mp hd
      exact ⟨ws, suf, by rw [hl, hr, List.append_assoc], hws⟩
  · rintro ⟨ws, suf, rfl, hws⟩
    unfold matchUnsafeBrace
    have hd : dropLit "unsafe".toList
        ("unsafe".toList ++ ws ++ '\x7b' :: suf) = some (ws ++ '\x7b' :: suf) := by
      rw [dropLit_eq_some_iff, List.append_assoc]
    rw [hd, show (some (ws ++ '\x7b' :: suf)).bind braceAfterWs =
      braceAfterWs (ws ++ '\x7b' :: suf) from rfl]
    exact (braceAfterWs_isSome_iff _).mpr ⟨ws, suf, rfl, hws⟩

/-- The previous-character tracker agrees when the scan advances one
position. -/
theorem lastOr_cons (prev : Option Char) (c : Char) (pre : List Char) :
    lastOr prev (c :: pre) = lastOr (some c) pre := by
  cases pre with
  | nil => rfl
  | cons d pre' =>
    simp only [lastOr, List.getLast?_cons_cons]
    cases hp : (d :: pre').getLast? with
    | none =>
      rw [List.getLast?_eq_none_iff] at hp
      cases hp
    | some x => rfl

/-- There is no occurrence in the empty region. -/
theorem not_hasUnsafeMatchFrom_nil (prev : Option Char) :
    ¬ HasUnsafeMatchFrom prev [] := by
  rintro ⟨pre, ws, suf, heq, -, -⟩
  have := congrArg List.length heq
  simp [List.length_append] at this
  omega

/-- Peeling one character off the region: an occurrence either starts
right here or lies in the tail. -/
theorem hasUnsafeMatchFrom_cons (prev : Option Char) (c : Char) (cs : List Char) :
    HasUnsafeMatchFrom prev (c :: cs) ↔
      (isWordCharOpt prev = false ∧
        ∃ ws suf, c :: cs = "unsafe".toList ++ ws ++ '\x7b' :: suf ∧
          ws.all isJsWhitespace = true) ∨
      HasUnsafeMatchFrom (some c) cs := by
  constructor
  · rintro ⟨pre, ws, suf, heq, hws, hb⟩
    cases pre with
    | nil =>
      left
      exact ⟨hb, ws, suf, by simpa using heq, hws⟩
    | cons p pre' =>
      right
      simp only [List.cons_append, List.cons.injEq] at heq
      obtain ⟨rfl, hcs⟩ := heq
      rw [lastOr_cons] at hb
      exact ⟨pre', ws, suf, hcs, hws, hb⟩
  · rintro (⟨hb, ws, suf, heq, hws⟩ | ⟨pre, ws, suf, heq, hws, hb⟩)
    · exact ⟨[], ws, suf, by simpa using heq, hws, hb⟩
    · exact ⟨c :: pre, ws, suf, by simp [heq], hws, by rwa [lastOr_cons]⟩

/-- The scanner reports zero exactly when no occurrence exists in the
region (relative to the tracked previous character). -/
theorem countUnsafeGo_zero_iff (code : List Char) : ∀ prev : Option Char,
    countUnsafeGo 0 prev code = 0 ↔ ¬ HasUnsafeMatchFrom prev code := by
  induction code with
  | nil =>
    intro prev
    simp [countUnsafeGo, not_hasUnsafeMatchFrom_nil]
  | cons c cs ih =>
    intro prev
    rw [hasUnsafeMatchFrom_cons]
    by_cases hw : isWordCharOpt prev
    · simp only [countUnsafeGo, if_pos hw, ih (some c)]
      simp [hw]
    · cases hm : matchUnsafeBrace (c :: cs) with
      | some rest =>
        have hhead : ∃ ws suf, c :: cs = "unsafe".toList ++ ws ++ '\x7b' :: suf ∧
            ws.all isJsWhitespace = true :=
          (matchUnsafeBrace_isSome_iff (c :: cs)).mp (by rw [hm]; rfl)
        simp only [countUnsafeGo, if_neg hw, hm]
        constructor
        · intro h; omega
        · intro h
          exact absurd (Or.inl ⟨by simpa using hw, hhead⟩) h
      | none =>
        have hnone : ¬ ∃ ws suf, c :: cs = "unsafe".toList ++ ws ++ '\x7b' :: suf ∧
            ws.all isJsWhitespace = true := by
          intro hex
          have := (matchUnsafeBrace_isSome_iff (c :: cs)).mpr hex
          rw [hm] at this
          simp at this
        simp only [countUnsafeGo, if_neg hw, hm, ih (some c)]
        constructor
        · intro h hor
          rcases hor with ⟨-, hex⟩ | htail
          · exact hnone hex
          · exact h htail
        · intro h htail
          exact h (Or.inr htail)

/-- Claim C9: countUnsafeBlocks is the non-overlapping global-regex
match count - in particular it is 0 exactly when the code contains no
occurrence of the pattern (keyword at a word boundary, optional
whitespace, opening brace), so it is 0 on the empty string and at least
1 whenever an occurrence exists - and countLines is the newline count
plus one, so the empty string is reported as one line. -/
theorem C9_count_functions :
    (∀ code, countLines code = code.count '\n' + 1) ∧
    countLines [] = 1 ∧
    countUnsafeBlocks [] = 0 ∧
    (∀ code, countUnsafeBlocks code = 0 ↔ ¬ HasUnsafeMatch code) ∧
    (∀ code, HasUnsafeMatch code → 1 ≤ countUnsafeBlocks code) := by
  refine ⟨?_, rfl, rfl, ?_, ?_⟩
  · intro code
    exact length_splitOnChar '\n' code
  · intro code
    exact countUnsafeGo_zero_iff code none
  · intro code h
    by_contra hlt
    have h0 : countUnsafeBlocks code = 0 := by omega
    exact (countUnsafeGo_zero_iff code none).mp h0 h

/-- Witness for C9 on concrete inputs: a two-line string, a match-free
string, and a string with one occurrence. -/
theorem C9_count_functions_witness :
    countLines ['a', '\n', 'b'] = ['a', '\n', 'b'].count '\n' + 1 ∧
    ¬ HasUnsafeMatch ['f', 'n'] ∧
    1 ≤ countUnsafeBlocks ("unsafe \x7b".toList) := by
  refine ⟨C9_count_functions.1 ['a', '\n', 'b'], ?_, ?_⟩
  · exact (C9_count_functions.2.2.2.1 ['f', 'n']).mp (by decide)
  · exact C9_count_functions.2.2.2.2 ("unsafe \x7b".toList)
      ⟨[], [' '], [], by decide, by decide, by decide⟩

/-- Inserting into a list grows it by one element. -/
theorem length_insertSorted (le : SessRec → SessRec → Bool) (x : SessRec) :
    ∀ l : List SessRec, (insertSorted le x l).length = l.length + 1 := by
  intro l
  induction l with
  | nil => rfl
  | cons y ys ih =>
    by_cases h : le x y
    · simp [insertSorted, h]
    · simp [insertSorted, h, ih]

/-- Array.prototype.sort permutes in place: the length is unchanged. -/
theorem length_sortSessions (k : SortKey) :
    ∀ l : List SessRec, (sortSessions k l).length = l.length := by
  intro l
  induction l with
  | nil => rfl
  | cons x xs ih => simp [sortSessions, length_insertSorted, ih]

/-- updatePagination does not touch the current page. -/
theorem updatePagination_currentPage (st : SessionsState) :
    (updatePagination st).currentPage = st.currentPage := rfl

/-- updatePagination does not touch the filtered list. -/
theorem updatePagination_filtered (st : SessionsState) :
    (updatePagination st).filteredSessions = st.filteredSessions := rfl

/-- The or-one fallback of updatePagination computes the claimed
max(1, ceil(length / 10)). -/
theorem updatePagination_totalPages (st : SessionsState) :
    (updatePagination st).totalPages =
      max 1 ((st.filteredSessions.length + 9) / 10) := by
  simp only [updatePagination, sessionsPerPage]
  split <;> omega

/-- updatePagination establishes the invariant as soon as the current
page is in range for the filtered list it is about to count. -/
theorem inv_updatePagination (st : SessionsState) (h1 : 1 ≤ st.currentPage)
    (h2 : st.currentPage ≤ max 1 ((st.filteredSessions.length + 9) / 10)) :
    PaginationInv (updatePagination st) := by
  refine ⟨?_, ?_, ?_⟩
  · rw [updatePagination_totalPages, updatePagination_filtered]
  · rw [updatePagination_currentPage]; exact h1
  · rw [updatePagination_currentPage, updatePagination_totalPages]; exact h2

/-- applySorting keeps the current page. -/
theorem applySorting_currentPage (st : SessionsState) :
    (applySorting st).currentPage = st.currentPage := rfl

/-- applySorting establishes the invariant under the same range
condition, since sorting preserves the length it repaginates over. -/
theorem inv_applySorting (st : SessionsState) (h1 : 1 ≤ st.currentPage)
    (h2 : st.currentPage ≤ max 1 ((st.filteredSessions.length + 9) / 10)) :
    PaginationInv (applySorting st) := by
  unfold applySorting
  apply inv_updatePagination
  · exact h1
  · simpa [length_sortSessions] using h2

/-- applyFilters resets to page one. -/
theorem applyFilters_currentPage (st : SessionsState) :
    (applyFilters st).currentPage = 1 := rfl

/-- applyFilters establishes the invariant unconditionally. -/
theorem inv_applyFilters (st : SessionsState) : PaginationInv (applyFilters st) := by
  unfold applyFilters
  exact inv_applySorting _ (le_refl 1) (le_max_left 1 _)

/-- loadSessions establishes the invariant unconditionally. -/
theorem inv_refreshSessions (fetched : List SessRec) (st : SessionsState) :
    PaginationInv (refreshSessions fetched st) := by
  unfold refreshSessions
  refine inv_updatePagination _ ?_ ?_
  · rw [applySorting_currentPage, applyFilters_currentPage]
  · rw [applySorting_currentPage, applyFilters_currentPage]
    exact le_max_left 1 _

/-- Every user operation of the sessions browser preserves the
invariant. -/
theorem inv_applySessOp (op : SessOp) (st : SessionsState) (h : PaginationInv st) :
    PaginationInv (applySessOp op st) := by
  obtain ⟨hA, hB, hC⟩ := h
  cases op with
  | filterChange f => exact inv_applyFilters _
  | sortChange k =>
    refine inv_applySorting _ hB ?_
    exact le_trans hC (le_of_eq hA)
  | refreshClick fetched => exact inv_refreshSessions fetched st
  | nextClick =>
    show PaginationInv (nextPage st)
    unfold nextPage
    by_cases hc : st.currentPage < st.totalPages
    · rw [if_pos hc]
      refine ⟨hA, ?_, ?_⟩
      · show 1 ≤ st.currentPage + 1
        omega
      · show st.currentPage + 1 ≤ st.totalPages
        omega
    · rw [if_neg hc]
      exact ⟨hA, hB, hC⟩
  | prevClick =>
    show PaginationInv (prevPage st)
    unfold prevPage
    by_cases hc : 1 < st.currentPage
    · rw [if_pos hc]
      refine ⟨hA, ?_, ?_⟩
      · show 1 ≤ st.currentPage - 1
        omega
      · show st.currentPage - 1 ≤ st.totalPages
        omega
    · rw [if_neg hc]
      exact ⟨hA, hB, hC⟩

/-- Any sequence of user operations preserves the invariant. -/
theorem inv_applySessOps (ops : List SessOp) :
    ∀ st : SessionsState, PaginationInv st → PaginationInv (applySessOps ops st) := by
  induction ops with
  | nil => intro st h; exact h
  | cons op ops ih =>
    intro st h
    exact ih (applySessOp op st) (inv_applySessOp op st h)

/-- With a current page of at least one, the rendered slice is the
claimed window from (page - 1) * 10 to min(page * 10, length). -/
theorem pageSlice_eq (st : SessionsState) (h : 1 ≤ st.currentPage) :
    pageSlice st = jsSlice st.filteredSessions
      ((st.currentPage - 1) * sessionsPerPage)
      (min (st.currentPage * sessionsPerPage) st.filteredSessions.length) := by
  have he : (st.currentPage - 1) * sessionsPerPage + sessionsPerPage =
      st.currentPage * sessionsPerPage := by
    simp only [sessionsPerPage]; omega
  simp only [pageSlice]
  rw [he]

/-- Claim C10: after initialization and any sequence of filter changes,
sort changes, refreshes and page clicks, the browser state satisfies
totalPages = max(1, ceil(length / 10)) with the current page between 1
and totalPages; and in any state satisfying that invariant,
renderSessions displays exactly the slice of the filtered list from
(currentPage - 1) * 10 up to min(currentPage * 10, length). -/
theorem C10_pagination_invariant :
    (∀ fetched ops, PaginationInv (applySessOps ops (initSessionsApp fetched))) ∧
    (∀ st, PaginationInv st →
      pageSlice st = jsSlice st.filteredSessions
        ((st.currentPage - 1) * sessionsPerPage)
        (min (st.currentPage * sessionsPerPage) st.filteredSessions.length)) := by
  constructor
  · intro fetched ops
    exact inv_applySessOps ops _ (inv_refreshSessions fetched initialSessionsState)
  · intro st h
    exact pageSlice_eq st h.2.1

/-- Witness for C10 at a concrete run: an empty fetch followed by a
next-page click. -/
theorem C10_pagination_invariant_witness :
    PaginationInv (applySessOps [SessOp.nextClick] (initSessionsApp [])) ∧
    pageSlice (initSessionsApp []) = jsSlice (initSessionsApp []).filteredSessions
      (((initSessionsApp []).currentPage - 1) * sessionsPerPage)
      (min ((initSessionsApp []).currentPage * sessionsPerPage)
        (initSessionsApp []).filteredSessions.length) := by
  constructor
  · exact C10_pagination_invariant.1 [] [SessOp.nextClick]
  · exact C10_pagination_invariant.2 (initSessionsApp [])
      (C10_pagination_invariant.1 [] [])
